import Mathlib

/-!
Formal model of the client utilities module (`src/client/utils.mjs`) of the
airdrop-navigator client: the password-derived authenticated-encryption scheme
(`encryptData` / `decryptData`), the encrypted reactive storage opener
(`useReactiveEncryptedStorage`), and the account-registry synchronization
helper (`useAccountsStorage`).

Modelling conventions.

Byte strings (plaintexts, passwords after `TextEncoder.encode`, salts, IVs,
encrypted blobs) are `List Nat`, each element one byte.  The persisted blob is
a JavaScript string with one code unit per byte (`String.fromCharCode` /
`charCodeAt`); that encoding is the identity on the byte lists modelled here,
so blobs are kept as `List Nat` throughout.

The WebCrypto primitives (`crypto.subtle` PBKDF2 and AES-GCM) are external to
the repository and are modelled ideally:

* `pbkdf2` is a deterministic function of (password, salt, iterations, hash)
  that is injective in those inputs — the ideal-KDF reading of PBKDF2, under
  which distinct passwords always derive distinct keys.
* AES-GCM encryption (`gcmEncrypt`) is a length-preserving byte masking keyed
  by the derived key and the IV, followed by an authentication tag that binds
  the key, the IV and the ciphertext exactly.  The tag is modelled as a
  16-element list whose head is an unbounded natural number encoding that
  binding; this makes authentication perfect (decryption under a different
  key always fails), which is the idealization of the 128-bit GCM tag that
  the specification's security statements assume.  The repository's own code
  never inspects the bytes of the AEAD output, so no claim depends on the
  width of individual tag entries.
* A rejected `crypto.subtle.decrypt` promise (GCM tag verification failure)
  is modelled as `CryptoError.authenticationError`, the specification's name
  for that failure.  The source has no other failure path in `decryptData`.

Randomness (`crypto.getRandomValues`) is modelled by passing the salt and IV
as explicit parameters; the theorems quantify over every 16-byte salt and
12-byte IV, covering every value the generator can produce.
-/

namespace AirdropNavigator

/-- Decidable equality of `Except` values, for evaluating the model on
concrete inputs. -/
instance {ε α : Type} [DecidableEq ε] [DecidableEq α] : DecidableEq (Except ε α)
  | Except.ok a, Except.ok b =>
    if h : a = b then isTrue (by rw [h]) else isFalse (by intro hc; cases hc; exact h rfl)
  | Except.ok _, Except.error _ => isFalse (by intro h; cases h)
  | Except.error _, Except.ok _ => isFalse (by intro h; cases h)
  | Except.error e, Except.error f =>
    if h : e = f then isTrue (by rw [h]) else isFalse (by intro hc; cases hc; exact h rfl)

/-- Error taxonomy of the specification for the cryptographic and storage
layer.  The source surfaces these conditions through `ElMessage.error` and
rejected promises; the model names them explicitly. -/
inductive CryptoError where
  | noPasswordError
  | malformedBlobError
  | authenticationError
  | keyDerivationError
deriving DecidableEq

/-- Hash algorithm selector of the derivation call (the source always passes
the string `SHA-256`). -/
inductive HashAlg where
  | sha256
deriving DecidableEq

/-- Numeric code of a hash algorithm, used inside the ideal KDF encoding. -/
def hashTag : HashAlg → Nat
  | HashAlg.sha256 => 0

/-- Injective encoding of byte lists into naturals (base 257 with digits
shifted by one).  Injectivity holds on lists whose elements are bytes
(`< 256`); see `byteListEncode_inj`. -/
def byteListEncode : List Nat → Nat
  | [] => 0
  | b :: rest => (b + 1) + 257 * byteListEncode rest

/-- Parameter record of a `crypto.subtle.deriveKey` call with PBKDF2, as the
source builds it literally: `{ name: PBKDF2, salt, iterations, hash }`. -/
structure Pbkdf2Params where
  salt : List Nat
  iterations : Nat
  hash : HashAlg
deriving DecidableEq

/-- Ideal model of the external PBKDF2 primitive: deterministic in, and
injective over, (password, salt, iterations, hash).  The concrete WebCrypto
implementation is outside the repository; the model keeps exactly the
properties the specification relies on (determinism, dependence on the fixed
iteration count and hash). -/
def pbkdf2 (password salt : List Nat) (iterations : Nat) (hash : HashAlg) : Nat :=
  Nat.pair (byteListEncode password)
    (Nat.pair (byteListEncode salt) (Nat.pair iterations (hashTag hash)))

/-- Model of `crypto.subtle.importKey('raw', passwordBuffer, {name: 'PBKDF2'},
false, ['deriveKey'])`: wraps the raw password bytes as key material.  PBKDF2
key import accepts any byte string, the empty one included; the call has no
failure path in the model. -/
def importKeyPBKDF2 (passwordBuffer : List Nat) : List Nat := passwordBuffer

/-- Model of `crypto.subtle.deriveKey({name: 'PBKDF2', salt, iterations,
hash}, key, {name: 'AES-GCM', length: 256}, true, ['encrypt', 'decrypt'])`.
Total: the source performs no validation of the password or the salt, and the
model derivation succeeds on every input (empty passwords and salts of any
length included). -/
def deriveKeyPBKDF2 (params : Pbkdf2Params) (baseKey : List Nat) : Nat :=
  pbkdf2 baseKey params.salt params.iterations params.hash

/-- Keystream byte `i` of the modelled AES-GCM masking for a given key and
encoded IV. -/
def keystreamByte (key ivCode i : Nat) : Nat := (key + ivCode + i) % 256

/-- Length-preserving byte masking (model of the CTR encryption layer of
AES-GCM), starting at keystream position `i`. -/
def maskBytes (key ivCode : Nat) : Nat → List Nat → List Nat
  | _, [] => []
  | i, b :: rest => (b + keystreamByte key ivCode i) % 256 :: maskBytes key ivCode (i + 1) rest

/-- Inverse of `maskBytes` on byte lists. -/
def unmaskBytes (key ivCode : Nat) : Nat → List Nat → List Nat
  | _, [] => []
  | i, c :: rest => (c + 256 - keystreamByte key ivCode i) % 256 :: unmaskBytes key ivCode (i + 1) rest

/-- Ideal authentication tag: a 16-element list whose head binds the key, the
IV and the ciphertext exactly (see the module docstring). -/
def tagBytes (key ivCode : Nat) (ciphertext : List Nat) : List Nat :=
  Nat.pair key (Nat.pair ivCode (byteListEncode ciphertext)) :: List.replicate 15 0

/-- Model of `crypto.subtle.encrypt({name: 'AES-GCM', iv}, derivedKey,
encoded)`: ciphertext followed by the authentication tag. -/
def gcmEncrypt (key : Nat) (iv pt : List Nat) : List Nat :=
  let ciphertext := maskBytes key (byteListEncode iv) 0 pt
  ciphertext ++ tagBytes key (byteListEncode iv) ciphertext

/-- Model of `crypto.subtle.decrypt({name: 'AES-GCM', iv}, derivedKey, data)`:
split off the trailing tag, verify it against the key, the IV and the
ciphertext, and unmask; `none` models the rejected promise on tag-verification
failure. -/
def gcmDecrypt (key : Nat) (iv data : List Nat) : Option (List Nat) :=
  let ciphertext := data.take (data.length - 16)
  let tag := data.drop (data.length - 16)
  if tag = tagBytes key (byteListEncode iv) ciphertext then
    some (unmaskBytes key (byteListEncode iv) 0 ciphertext)
  else none

/-- Model of `encryptData(data, password)` from `src/client/utils.mjs` lines
128-164, with the two `crypto.getRandomValues` results (`salt`, 16 bytes, and
`iv`, 12 bytes) passed as explicit parameters.  Derives the key through
PBKDF2 with 1000 iterations and SHA-256, encrypts with AES-GCM, and returns
`salt ++ iv ++ encryptedArray` exactly as the three `combinedArray.set` calls
lay the output out. -/
def encryptData (data password salt iv : List Nat) : List Nat :=
  let passwordBuffer := password
  let key := importKeyPBKDF2 passwordBuffer
  let derivedKey := deriveKeyPBKDF2 ⟨salt, 1000, HashAlg.sha256⟩ key
  let encryptedArray := gcmEncrypt derivedKey iv data
  salt ++ iv ++ encryptedArray

/-- Model of `decryptData(data, password)` from `src/client/utils.mjs` lines
166-198: slices the blob as `slice(0,16)`, `slice(16,28)`, `slice(28)`,
derives the key with the same fixed PBKDF2 parameters, and runs AES-GCM
decryption.  The source performs no length or shape validation; the only
failure path is the rejected `crypto.subtle.decrypt` promise, modelled as
`CryptoError.authenticationError`. -/
def decryptData (data password : List Nat) : Except CryptoError (List Nat) :=
  let dataArray := data
  let salt := dataArray.take 16
  let iv := (dataArray.drop 16).take 12
  let encryptedData := dataArray.drop 28
  let key := importKeyPBKDF2 password
  let derivedKey := deriveKeyPBKDF2 ⟨salt, 1000, HashAlg.sha256⟩ key
  match gcmDecrypt derivedKey iv encryptedData with
  | some pt => Except.ok pt
  | none => Except.error CryptoError.authenticationError

/-! Encrypted reactive storage (`useReactiveEncryptedStorage`, lines 17-45).

The browser `localStorage` is modelled as an association list from slot names
to stored strings, and the calls a run of the opener makes on it are recorded
in an operation trace (`SOp`), so that "performs no I/O" is a statement about
the trace.  The Vue reactivity layer is external; `watch(storage, ...,
{deep: true, immediate: true})` runs its callback once immediately, so the
opener itself performs one encode-and-write of the hydrated value, which the
model includes.  `ElMessage.error` surfacing is modelled by the corresponding
`CryptoError` value. -/

/-- JavaScript truthiness of the `storagePassword.value` cell: `null`
(no sessionStorage entry) and the empty string are falsy. -/
def strTruthy : Option String → Bool
  | none => false
  | some s => s ≠ ""

/-- One operation performed on the persisted storage. -/
inductive SOp where
  | getItem (name : String)
  | setItem (name value : String)
deriving DecidableEq

/-- Lookup in the modelled `localStorage`. -/
def lsGet : List (String × String) → String → Option String
  | [], _ => none
  | p :: rest, k => if p.1 = k then some p.2 else lsGet rest k

/-- Update-or-append in the modelled `localStorage` (`setItem`). -/
def lsSet : List (String × String) → String → String → List (String × String)
  | [], k, v => [(k, v)]
  | p :: rest, k, v => if p.1 = k then (k, v) :: rest else p :: lsSet rest k v

/-- Model of `useReactiveEncryptedStorage(name, defaultValue, {encode,
decode})` from `src/client/utils.mjs` lines 17-45, covering one run of the
opener: the password guard, the hydration read and decode (with fallback to
`defaultValue` on absence or decode failure), and the immediate write-back
the `immediate: true` watch performs.  Returns the opened value (or the
guard error), the updated storage, and the trace of storage operations.
The source reads the slot twice (once in the `if`, once as the `decode`
argument), which the trace reproduces. -/
def useReactiveEncryptedStorage {α : Type} (storagePassword : Option String)
    (ls : List (String × String)) (name : String) (defaultValue : α)
    (decode : String → Except CryptoError α) (encode : α → Except CryptoError String) :
    Except CryptoError α × List (String × String) × List SOp :=
  if strTruthy storagePassword = false then
    (Except.error CryptoError.noPasswordError, ls, [])
  else
    let read := lsGet ls name
    let readTrace : List SOp :=
      match read with
      | some s => if s ≠ "" then [SOp.getItem name, SOp.getItem name] else [SOp.getItem name]
      | none => [SOp.getItem name]
    let hydrated : Option α :=
      match read with
      | some s =>
        if s ≠ "" then
          match decode s with
          | Except.ok v => some v
          | Except.error _ => none
        else none
      | none => none
    let storage := hydrated.getD defaultValue
    match encode storage with
    | Except.ok enc => (Except.ok storage, lsSet ls name enc, readTrace ++ [SOp.setItem name enc])
    | Except.error _ => (Except.ok storage, ls, readTrace)

/-! Account registry (`useAccountsStorage`, lines 47-126).

Accounts, the status side map, and the socket events the registry emits are
modelled explicitly; each socket handler and each exported operation becomes a
function from the registry state (account list plus status map) and its input
to the new state and the list of emitted events.  `ElMessage.error` calls
reporting a missing address are modelled as `RegError.addressNotFoundError`. -/

/-- Model of the JavaScript `String.prototype.toLowerCase()` call (the
addresses involved are ASCII hex strings): lower-cases every character. -/
def toLowerCase (s : String) : String := String.mk (s.data.map Char.toLower)

/-- Liveness/authorization status of one address. -/
inductive AccountStatus where
  | AUTHORIZING
  | UNAUTHORIZED
  | ONLINE
deriving DecidableEq

/-- Registry-level user-facing error. -/
inductive RegError where
  | addressNotFoundError
deriving DecidableEq

/-- An account of the list: address plus private key (the signing capability
is supplied externally through the `sign` parameter). -/
structure Account where
  address : String
  privateKey : String
deriving DecidableEq

/-- The status side map `accountsStatus` (a JavaScript `Map`), modelled as an
insertion-ordered association list. -/
abbrev StatusMap := List (String × AccountStatus)

/-- Lookup (`Map.get`). -/
def mapGet : StatusMap → String → Option AccountStatus
  | [], _ => none
  | p :: rest, k => if p.1 = k then some p.2 else mapGet rest k

/-- Membership (`Map.has`). -/
def mapHas : StatusMap → String → Bool
  | [], _ => false
  | p :: rest, k => if p.1 = k then true else mapHas rest k

/-- Insert-or-replace (`Map.set`): replaces the first entry with the key,
appends at the end otherwise. -/
def mapSet : StatusMap → String → AccountStatus → StatusMap
  | [], k, v => [(k, v)]
  | p :: rest, k, v => if p.1 = k then (k, v) :: rest else p :: mapSet rest k v

/-- Removal (`Map.delete`). -/
def mapDelete : StatusMap → String → StatusMap
  | [], _ => []
  | p :: rest, k => if p.1 = k then mapDelete rest k else p :: mapDelete rest k

/-- A socket event the registry emits. -/
inductive SocketEvent where
  | addAddress (blockchain address : String) (version : Nat)
  | removeAddress (blockchain address : String)
  | response (messageId : String) (success : Bool) (signature : Option String)
deriving DecidableEq

/-- The `version` constant of `src/client/utils.mjs` line 15, sent with every
`addAddress` announcement. -/
def version : Nat := 2

/-- Registry state: the decrypted account list plus the status side map. -/
structure RegState where
  accounts : List Account
  accountsStatus : StatusMap
deriving DecidableEq

/-- Outcome of one exported registry operation. -/
structure OpOutcome where
  err : Option RegError
  state : RegState
  emitted : List SocketEvent
deriving DecidableEq

/-- Model of `getAccountByAddress` (line 54): case-insensitive first match on
the account list. -/
def getAccountByAddress (accounts : List Account) (address : String) : Option Account :=
  accounts.find? (fun account => toLowerCase account.address = toLowerCase address)

/-- Index the JavaScript `accounts.indexOf(account)` call computes when
`account` is the result of `getAccountByAddress`: the index of the first
case-insensitive match, and `-1` when the lookup produced `undefined`. -/
def jsIndexOfFound (accounts : List Account) (address : String) : Int :=
  match accounts.findIdx? (fun account => toLowerCase account.address = toLowerCase address) with
  | some i => Int.ofNat i
  | none => -1

/-- JavaScript `splice(i, 1)` on a list: a negative `i` counts from the end
(clamped at 0), an `i` at or beyond the length removes nothing. -/
def spliceOut (l : List Account) (i : Int) : List Account :=
  let start := if i < 0 then (Int.ofNat l.length + i).toNat else min i.toNat l.length
  l.take start ++ l.drop (start + 1)

/-- Model of `removeAddress(address)` from `src/client/utils.mjs` lines
57-64, transcribed exactly as written: the guard tests the truthiness of the
`address` argument (`if (!address)`), not the result of the lookup, and the
removal runs `accounts.splice(accounts.indexOf(account), 1)` on whatever the
lookup returned. -/
def removeAddress (blockchain : String) (s : RegState) (address : String) : OpOutcome :=
  let account := getAccountByAddress s.accounts address
  if address = "" then ⟨some RegError.addressNotFoundError, s, []⟩
  else
    ⟨none,
     ⟨spliceOut s.accounts
        (match account with
         | some _ => jsIndexOfFound s.accounts address
         | none => -1),
      mapDelete s.accountsStatus (toLowerCase address)⟩,
     [SocketEvent.removeAddress blockchain address]⟩

/-- Model of `reconnectAddress(address)` from lines 66-72: on a successful
case-insensitive lookup, sets the status entry under the address argument
as given (no lower-casing in the source) and announces the address. -/
def reconnectAddress (blockchain : String) (s : RegState) (address : String) : OpOutcome :=
  match getAccountByAddress s.accounts address with
  | none => ⟨some RegError.addressNotFoundError, s, []⟩
  | some _ =>
    ⟨none,
     ⟨s.accounts, mapSet s.accountsStatus address AccountStatus.AUTHORIZING⟩,
     [SocketEvent.addAddress blockchain address version]⟩

/-- Model of `reconnectAllAddresses()` from lines 73-78: marks every account
under its stored address string (no lower-casing in the source) and announces
each one. -/
def reconnectAllAddresses (blockchain : String) (s : RegState) : RegState × List SocketEvent :=
  let r := s.accounts.foldl
    (fun (acc : StatusMap × List SocketEvent) account =>
      (mapSet acc.1 account.address AccountStatus.AUTHORIZING,
       acc.2 ++ [SocketEvent.addAddress blockchain account.address version]))
    (s.accountsStatus, [])
  (⟨s.accounts, r.1⟩, r.2)

/-- One pass of the `watch(accounts, ...)` callback body (lines 80-87) over a
suffix of the account list, threading the status map and collecting emitted
events in order. -/
def accountsWatchSteps (blockchain : String) : List Account → StatusMap → StatusMap × List SocketEvent
  | [], st => (st, [])
  | account :: rest, st =>
    if mapHas st (toLowerCase account.address) then accountsWatchSteps blockchain rest st
    else
      let r := accountsWatchSteps blockchain rest
        (mapSet st (toLowerCase account.address) AccountStatus.AUTHORIZING)
      (r.1, SocketEvent.addAddress blockchain account.address version :: r.2)

/-- Model of the `watch(accounts, ..., {immediate: true})` callback from
lines 80-87: it runs after every mutation of the account list (and once at
hydration) and, for every account whose lower-cased address has no status
entry yet, marks it `AUTHORIZING` under the lower-cased key and emits an
`addAddress` announcement carrying the `version` constant. -/
def accountsWatchHandler (blockchain : String) (s : RegState) : RegState × List SocketEvent :=
  let r := accountsWatchSteps blockchain s.accounts s.accountsStatus
  (⟨s.accounts, r.1⟩, r.2)

/-- Payload of an inbound `addressAuthChallenge` event. -/
structure ChallengePayload where
  blockchain : String
  address : String
  dataToSign : String
deriving DecidableEq

/-- An inbound `addressAuthChallenge` message. -/
structure ChallengeMessage where
  messageId : String
  payload : ChallengePayload
deriving DecidableEq

/-- Model of the `addressAuthChallenge` handler from lines 100-112: a message
whose payload blockchain differs case-insensitively from this registry's
blockchain is ignored; otherwise the handler answers on the
`response-<messageId>` channel with a signature for a known address or a
failure for an unknown one.  The handler mutates no registry state. -/
def addressAuthChallengeHandler (blockchain : String) (sign : Account → String → String)
    (s : RegState) (message : ChallengeMessage) : RegState × List SocketEvent :=
  if toLowerCase message.payload.blockchain ≠ toLowerCase blockchain then (s, [])
  else
    match getAccountByAddress s.accounts message.payload.address with
    | some account =>
      (s, [SocketEvent.response message.messageId true
            (some (sign account message.payload.dataToSign))])
    | none => (s, [SocketEvent.response message.messageId false none])

/-- Payload of the inbound challenge-outcome events. -/
structure AddressPayload where
  address : String
deriving DecidableEq

/-- An inbound `addressAuthChallengeFailed` / `addressAuthChallengeSuccess`
message. -/
structure AddressMessage where
  payload : AddressPayload
deriving DecidableEq

/-- Model of the `addressAuthChallengeFailed` handler (line 114): status of
the lower-cased address becomes `UNAUTHORIZED`. -/
def addressAuthChallengeFailedHandler (s : RegState) (message : AddressMessage) : RegState :=
  ⟨s.accounts, mapSet s.accountsStatus (toLowerCase message.payload.address) AccountStatus.UNAUTHORIZED⟩

/-- Model of the `addressAuthChallengeSuccess` handler (line 115): status of
the lower-cased address becomes `ONLINE`. -/
def addressAuthChallengeSuccessHandler (s : RegState) (message : AddressMessage) : RegState :=
  ⟨s.accounts, mapSet s.accountsStatus (toLowerCase message.payload.address) AccountStatus.ONLINE⟩

/-! Helper lemmas. -/

theorem take_len_append (a b : List Nat) : (a ++ b).take a.length = a := by
  induction a with
  | nil => simp
  | cons x xs ih => simp [ih]

theorem drop_len_append (a b : List Nat) : (a ++ b).drop a.length = b := by
  induction a with
  | nil => simp
  | cons x xs ih => simp [ih]

theorem drop_len_append_plus (a b : List Nat) (k : Nat) :
    (a ++ b).drop (a.length + k) = b.drop k := by
  induction a with
  | nil => simp
  | cons x xs ih =>
    simp only [List.cons_append, List.length_cons]
    rw [show xs.length + 1 + k = (xs.length + k) + 1 by omega]
    simp [ih]

theorem pair_inj {a b c d : Nat} (h : Nat.pair a b = Nat.pair c d) : a = c ∧ b = d := by
  have h2 := congrArg Nat.unpair h
  rw [Nat.unpair_pair, Nat.unpair_pair] at h2
  exact ⟨congrArg Prod.fst h2, congrArg Prod.snd h2⟩

theorem byteListEncode_inj : ∀ l1 l2 : List Nat, (∀ b ∈ l1, b < 256) → (∀ b ∈ l2, b < 256) →
    byteListEncode l1 = byteListEncode l2 → l1 = l2 := by
  intro l1
  induction l1 with
  | nil =>
    intro l2 _ _ h
    cases l2 with
    | nil => rfl
    | cons b t => simp only [byteListEncode] at h; omega
  | cons a t ih =>
    intro l2 h1 h2 h
    cases l2 with
    | nil => simp only [byteListEncode] at h; omega
    | cons b t2 =>
      simp only [byteListEncode] at h
      have ha : a < 256 := h1 a (by simp)
      have hb : b < 256 := h2 b (by simp)
      have hhead : a = b := by omega
      have htail : byteListEncode t = byteListEncode t2 := by omega
      rw [hhead, ih t2 (fun x hx => h1 x (by simp [hx])) (fun x hx => h2 x (by simp [hx])) htail]

theorem pbkdf2_password_inj {p1 p2 salt : List Nat} {it : Nat} {ha : HashAlg}
    (hb1 : ∀ b ∈ p1, b < 256) (hb2 : ∀ b ∈ p2, b < 256)
    (heq : pbkdf2 p1 salt it ha = pbkdf2 p2 salt it ha) : p1 = p2 := by
  exact byteListEncode_inj p1 p2 hb1 hb2 (pair_inj heq).1

theorem maskBytes_length (key ivCode : Nat) : ∀ (i : Nat) (l : List Nat),
    (maskBytes key ivCode i l).length = l.length := by
  intro i l
  induction l generalizing i with
  | nil => rfl
  | cons b rest ih => simp [maskBytes, ih]

theorem unmask_mask (key ivCode : Nat) : ∀ (i : Nat) (l : List Nat), (∀ b ∈ l, b < 256) →
    unmaskBytes key ivCode i (maskBytes key ivCode i l) = l := by
  intro i l
  induction l generalizing i with
  | nil => intro _; rfl
  | cons b rest ih =>
    intro h
    have hb : b < 256 := h b (by simp)
    have hks : keystreamByte key ivCode i < 256 := by unfold keystreamByte; omega
    have hrest := ih (i + 1) (fun x hx => h x (by simp [hx]))
    simp only [maskBytes, unmaskBytes, hrest]
    congr 1
    omega

theorem tagBytes_length (key ivCode : Nat) (ciphertext : List Nat) :
    (tagBytes key ivCode ciphertext).length = 16 := by
  simp [tagBytes]

theorem tagBytes_key_inj {k1 k2 n : Nat} {c : List Nat}
    (h : tagBytes k1 n c = tagBytes k2 n c) : k1 = k2 := by
  simp only [tagBytes, List.cons.injEq] at h
  exact (pair_inj h.1).1

theorem gcmDecrypt_gcmEncrypt (key : Nat) (iv pt : List Nat) (hpt : ∀ b ∈ pt, b < 256) :
    gcmDecrypt key iv (gcmEncrypt key iv pt) = some pt := by
  have hmask := unmask_mask key (byteListEncode iv) 0 pt hpt
  simp only [gcmEncrypt, gcmDecrypt]
  have hlen : (maskBytes key (byteListEncode iv) 0 pt ++
      tagBytes key (byteListEncode iv) (maskBytes key (byteListEncode iv) 0 pt)).length - 16 =
      (maskBytes key (byteListEncode iv) 0 pt).length := by
    simp [tagBytes]
  rw [hlen, take_len_append, drop_len_append, if_pos rfl, hmask]

theorem gcmDecrypt_wrong_key {k1 k2 : Nat} (iv pt : List Nat) (hne : k1 ≠ k2) :
    gcmDecrypt k2 iv (gcmEncrypt k1 iv pt) = none := by
  simp only [gcmEncrypt, gcmDecrypt]
  have hlen : (maskBytes k1 (byteListEncode iv) 0 pt ++
      tagBytes k1 (byteListEncode iv) (maskBytes k1 (byteListEncode iv) 0 pt)).length - 16 =
      (maskBytes k1 (byteListEncode iv) 0 pt).length := by
    simp [tagBytes]
  rw [hlen, take_len_append, drop_len_append, if_neg]
  intro h
  exact hne (tagBytes_key_inj h)

theorem encryptData_eq (data password salt iv : List Nat) :
    encryptData data password salt iv =
      salt ++ iv ++ gcmEncrypt (pbkdf2 password salt 1000 HashAlg.sha256) iv data := rfl

theorem decryptData_slices (data password : List Nat) :
    decryptData data password =
      match gcmDecrypt (pbkdf2 password (data.take 16) 1000 HashAlg.sha256)
          ((data.drop 16).take 12) (data.drop 28) with
      | some pt => Except.ok pt
      | none => Except.error CryptoError.authenticationError := rfl

theorem blob_take_16 (salt iv rest : List Nat) (hsalt : salt.length = 16) :
    (salt ++ iv ++ rest).take 16 = salt := by
  rw [List.append_assoc, ← hsalt]
  exact take_len_append ..

theorem blob_drop16_take_12 (salt iv rest : List Nat) (hsalt : salt.length = 16)
    (hiv : iv.length = 12) : ((salt ++ iv ++ rest).drop 16).take 12 = iv := by
  rw [List.append_assoc, ← hsalt, drop_len_append, ← hiv, take_len_append]

theorem blob_drop_28 (salt iv rest : List Nat) (hsalt : salt.length = 16)
    (hiv : iv.length = 12) : (salt ++ iv ++ rest).drop 28 = rest := by
  rw [List.append_assoc, show (28 : Nat) = salt.length + 12 by omega, drop_len_append_plus,
    ← hiv, drop_len_append]

theorem gcmDecrypt_nil (key : Nat) (iv : List Nat) : gcmDecrypt key iv [] = none := by
  simp [gcmDecrypt, tagBytes]

/-! Claim theorems for the cryptographic layer. -/

/-- C1: for every plaintext `data`, every password, and whatever 16-byte salt
and 12-byte IV the random generator supplies, decrypting the blob produced by
`encryptData` with the same password returns the plaintext. -/
theorem decryptData_encryptData_roundtrip (data password salt iv : List Nat)
    (hdata : ∀ b ∈ data, b < 256) (hsalt : salt.length = 16) (hiv : iv.length = 12) :
    decryptData (encryptData data password salt iv) password = Except.ok data := by
  rw [encryptData_eq, decryptData_slices, blob_take_16 _ _ _ hsalt,
    blob_drop16_take_12 _ _ _ hsalt hiv, blob_drop_28 _ _ _ hsalt hiv,
    gcmDecrypt_gcmEncrypt _ _ _ hdata]

/-- C1 witness: the round trip evaluated at a concrete plaintext, password,
salt and IV. -/
theorem decryptData_encryptData_roundtrip_witness :
    decryptData (encryptData [7, 8, 255] [112] (List.replicate 16 3) (List.replicate 12 5)) [112] =
      Except.ok [7, 8, 255] :=
  decryptData_encryptData_roundtrip [7, 8, 255] [112] (List.replicate 16 3) (List.replicate 12 5)
    (by decide) (by decide) (by decide)

/-- C2: for every plaintext and password and every 16-byte salt and 12-byte IV
supplied by the random generator, the blob `encryptData` returns starts with
the salt (first 16 bytes), continues with the IV (next 12 bytes), and ends
with the AES-GCM output (ciphertext followed by tag) under the key that the
PBKDF2 derivation call produces from the password and that salt. -/
theorem encryptData_blob_layout (data password salt iv : List Nat)
    (hsalt : salt.length = 16) (hiv : iv.length = 12) :
    (encryptData data password salt iv).take 16 = salt ∧
    ((encryptData data password salt iv).drop 16).take 12 = iv ∧
    (encryptData data password salt iv).drop 28 =
      gcmEncrypt (deriveKeyPBKDF2 ⟨salt, 1000, HashAlg.sha256⟩ (importKeyPBKDF2 password))
        iv data := by
  refine ⟨?_, ?_, ?_⟩
  · rw [encryptData_eq, blob_take_16 _ _ _ hsalt]
  · rw [encryptData_eq, blob_drop16_take_12 _ _ _ hsalt hiv]
  · rw [encryptData_eq, blob_drop_28 _ _ _ hsalt hiv]
    rfl

/-- C2 witness: the layout evaluated at a concrete plaintext, password, salt
and IV. -/
theorem encryptData_blob_layout_witness :
    (encryptData [1, 2, 3] [107] (List.replicate 16 9) (List.replicate 12 4)).take 16 =
      List.replicate 16 9 ∧
    ((encryptData [1, 2, 3] [107] (List.replicate 16 9) (List.replicate 12 4)).drop 16).take 12 =
      List.replicate 12 4 ∧
    (encryptData [1, 2, 3] [107] (List.replicate 16 9) (List.replicate 12 4)).drop 28 =
      gcmEncrypt
        (deriveKeyPBKDF2 ⟨List.replicate 16 9, 1000, HashAlg.sha256⟩ (importKeyPBKDF2 [107]))
        (List.replicate 12 4) [1, 2, 3] :=
  encryptData_blob_layout [1, 2, 3] [107] (List.replicate 16 9) (List.replicate 12 4)
    (by decide) (by decide)

/-- C4 counterexample: a 27-byte blob makes `decryptData` fail, but through
the single AES-GCM failure path (`authenticationError`), not through a
distinct `MalformedBlobError`: the source has no length check at all. -/
theorem short_blob_error_is_authentication_not_malformed :
    decryptData (List.replicate 27 0) [112] = Except.error CryptoError.authenticationError ∧
    decryptData (List.replicate 27 0) [112] ≠ Except.error CryptoError.malformedBlobError :=
  ⟨by decide, by decide⟩

/-- C4 amended: every blob shorter than 28 bytes makes `decryptData` fail,
but with the generic AES-GCM authentication failure (the empty ciphertext
slice cannot carry a valid tag); there is no distinct malformed-input
error in the code. -/
theorem decryptData_short_blob_fails_authenticationError (blob password : List Nat)
    (h : blob.length < 28) :
    decryptData blob password = Except.error CryptoError.authenticationError := by
  have hdrop : blob.drop 28 = [] := by
    have hle : blob.length ≤ 28 := by omega
    simp [List.drop_eq_nil_iff, hle]
  rw [decryptData_slices, hdrop, gcmDecrypt_nil]

/-- C4 amended witness: a concrete 3-byte blob fails with the authentication
error. -/
theorem decryptData_short_blob_fails_authenticationError_witness :
    decryptData [5, 6, 7] [9] = Except.error CryptoError.authenticationError :=
  decryptData_short_blob_fails_authenticationError [5, 6, 7] [9] (by decide)

/-- C5: decrypting a blob produced under one password with any other password
fails with the authentication error (in the ideal model of the KDF and the
AEAD, where distinct passwords derive distinct keys and the tag binds the
key exactly). -/
theorem decryptData_wrong_password_fails (data pw1 pw2 salt iv : List Nat)
    (hb1 : ∀ b ∈ pw1, b < 256) (hb2 : ∀ b ∈ pw2, b < 256)
    (hsalt : salt.length = 16) (hiv : iv.length = 12) (hne : pw1 ≠ pw2) :
    decryptData (encryptData data pw1 salt iv) pw2 =
      Except.error CryptoError.authenticationError := by
  have hkey : pbkdf2 pw1 salt 1000 HashAlg.sha256 ≠ pbkdf2 pw2 salt 1000 HashAlg.sha256 := by
    intro h
    exact hne (pbkdf2_password_inj hb1 hb2 h)
  rw [encryptData_eq, decryptData_slices, blob_take_16 _ _ _ hsalt,
    blob_drop16_take_12 _ _ _ hsalt hiv, blob_drop_28 _ _ _ hsalt hiv,
    gcmDecrypt_wrong_key _ _ hkey]

/-- C5 witness: wrong-password decryption evaluated at concrete distinct
passwords. -/
theorem decryptData_wrong_password_fails_witness :
    decryptData (encryptData [1, 2] [97] (List.replicate 16 3) (List.replicate 12 5)) [98] =
      Except.error CryptoError.authenticationError :=
  decryptData_wrong_password_fails [1, 2] [97] [98] (List.replicate 16 3) (List.replicate 12 5)
    (by decide) (by decide) (by decide) (by decide) (by decide)

/-- C6 counterexample: with the empty password (which the claim says must
make derivation fail with `KeyDerivationError`), encryption and decryption
run to completion and round-trip: the code validates neither the password nor
the salt, and no `KeyDerivationError` exists in it. -/
theorem empty_password_derivation_not_rejected :
    decryptData (encryptData [7] [] (List.replicate 16 0) (List.replicate 12 1)) [] =
      Except.ok [7] ∧
    decryptData (encryptData [7] [] (List.replicate 16 0) (List.replicate 12 1)) [] ≠
      Except.error CryptoError.keyDerivationError :=
  ⟨by decide, by decide⟩

/-- C6 amended: key derivation performs no input validation — it succeeds on
every password (the empty one included) and every salt length, never raising
a `KeyDerivationError` — and it is the deterministic PBKDF2 function of
(password, salt) at the fixed parameters: iteration count 1000 and SHA-256
(pinned by injectivity of the ideal KDF in its parameters).  In particular a
full encrypt-decrypt cycle under the empty password succeeds. -/
theorem derivation_fixed_params_no_validation (password salt data iv : List Nat) :
    deriveKeyPBKDF2 ⟨salt, 1000, HashAlg.sha256⟩ (importKeyPBKDF2 password) =
      pbkdf2 password salt 1000 HashAlg.sha256 ∧
    (∀ (it : Nat) (ha : HashAlg),
      pbkdf2 password salt it ha = pbkdf2 password salt 1000 HashAlg.sha256 →
        it = 1000 ∧ ha = HashAlg.sha256) ∧
    (salt.length = 16 → iv.length = 12 → (∀ b ∈ data, b < 256) →
      decryptData (encryptData data [] salt iv) [] = Except.ok data) := by
  refine ⟨rfl, ?_, ?_⟩
  · intro it ha h
    simp only [pbkdf2] at h
    have h2 := pair_inj (pair_inj (pair_inj h).2).2
    cases ha
    exact ⟨h2.1, rfl⟩
  · intro hsalt hiv hdata
    exact decryptData_encryptData_roundtrip data [] salt iv hdata hsalt hiv

/-- C6 amended witness: the parameter-pinning and the empty-password cycle
evaluated at concrete inputs. -/
theorem derivation_fixed_params_no_validation_witness :
    (1000 = 1000 ∧ HashAlg.sha256 = HashAlg.sha256) ∧
    decryptData (encryptData [9, 10] [] (List.replicate 16 7) (List.replicate 12 2)) [] =
      Except.ok [9, 10] :=
  ⟨(derivation_fixed_params_no_validation [] (List.replicate 16 7) [9, 10]
      (List.replicate 12 2)).2.1 1000 HashAlg.sha256 rfl,
   (derivation_fixed_params_no_validation [] (List.replicate 16 7) [9, 10]
      (List.replicate 12 2)).2.2 (by decide) (by decide) (by decide)⟩

/-! Helper lemmas for the status map. -/

theorem mapGet_mapSet (m : StatusMap) (k0 k : String) (v : AccountStatus) :
    mapGet (mapSet m k0 v) k = if k0 = k then some v else mapGet m k := by
  induction m with
  | nil => simp [mapSet, mapGet]
  | cons p rest ih =>
    simp only [mapSet]
    by_cases h1 : p.1 = k0
    · by_cases h2 : k0 = k <;> simp [mapGet, h1, h2]
    · rw [if_neg h1]
      by_cases h3 : p.1 = k

      · have h2 : ¬k0 = k := fun he => h1 (h3.trans he.symm)
        rw [if_neg h2]
        simp only [mapGet]
        rw [if_pos h3, if_pos h3]
      · simp only [mapGet]
        rw [if_neg h3, if_neg h3, ih]

theorem mapHas_false_iff (m : StatusMap) (k : String) :
    mapHas m k = false ↔ mapGet m k = none := by
  induction m with
  | nil => simp [mapHas, mapGet]
  | cons p rest ih =>
    by_cases h : p.1 = k <;> simp [mapHas, mapGet, h, ih]

/-! Claim theorems for the encrypted storage opener. -/

/-- C7: with no password set (the `storagePassword` cell absent or empty,
both falsy), `useReactiveEncryptedStorage` fails immediately with the
no-password error, for every store name, default value and codec, leaving the
persisted storage untouched and performing no storage operation at all. -/
theorem open_without_password_no_io {α : Type} (storagePassword : Option String)
    (ls : List (String × String)) (name : String) (defaultValue : α)
    (decode : String → Except CryptoError α) (encode : α → Except CryptoError String)
    (h : strTruthy storagePassword = false) :
    useReactiveEncryptedStorage storagePassword ls name defaultValue decode encode =
      (Except.error CryptoError.noPasswordError, ls, ([] : List SOp)) := by
  simp [useReactiveEncryptedStorage, h]

/-- C7 witness: the opener evaluated with no password on a concrete store. -/
theorem open_without_password_no_io_witness :
    useReactiveEncryptedStorage none [("slot", "x")] "slot" (0 : Nat)
      (fun _ => Except.error CryptoError.authenticationError) (fun _ => Except.ok "e") =
      (Except.error CryptoError.noPasswordError, [("slot", "x")], ([] : List SOp)) :=
  open_without_password_no_io none [("slot", "x")] "slot" 0
    (fun _ => Except.error CryptoError.authenticationError) (fun _ => Except.ok "e") (by decide)

/-! Claim theorems for the account registry. -/

/-- C3 (code bug): `removeAddress` called with an address that is not in the
account list does not fail with the address-not-found error — the guard at
line 59 tests the truthiness of the `address` argument instead of the lookup
result (compare the correct `if (!account)` guard of `reconnectAddress`).
The call emits `removeAddress` to the peer and, because
`accounts.indexOf(undefined)` is `-1` and `splice(-1, 1)` removes the last
element, deletes the last account from the list: here the single account
`0xaa` vanishes after a `removeAddress("0xbb")` call. -/
theorem removeAddress_absent_address_removes_last_account :
    removeAddress "eth" ⟨[⟨"0xaa", "k1"⟩], []⟩ "0xbb" =
      ⟨none, ⟨[], []⟩, [SocketEvent.removeAddress "eth" "0xbb"]⟩ := by
  decide

/-- C8 counterexample: `reconnectAddress` (line 70) inserts the status entry
under the address argument exactly as given, with no lower-casing: after
reconnecting the mixed-case address `0xAB`, the status map's key is `0xAB`,
which is not a lower-cased string. -/
theorem reconnectAddress_inserts_non_lowercased_key :
    (reconnectAddress "eth" ⟨[⟨"0xAB", "k"⟩], []⟩ "0xAB").state.accountsStatus =
      [("0xAB", AccountStatus.AUTHORIZING)] ∧
    ("0xAB" : String) ≠ toLowerCase "0xAB" :=
  ⟨by decide, by decide⟩

/-- C10: an inbound `addressAuthChallenge` whose payload blockchain differs
case-insensitively from this registry's blockchain is ignored entirely: no
event of any kind is emitted and the registry state (account list and status
map) is unchanged. -/
theorem challenge_for_other_blockchain_ignored (blockchain : String)
    (sign : Account → String → String) (s : RegState) (message : ChallengeMessage)
    (h : toLowerCase message.payload.blockchain ≠ toLowerCase blockchain) :
    addressAuthChallengeHandler blockchain sign s message = (s, []) := by
  unfold addressAuthChallengeHandler
  rw [if_pos h]

/-- C10 witness: a challenge for blockchain `SOL` arriving at an `eth`
registry is ignored. -/
theorem challenge_for_other_blockchain_ignored_witness :
    addressAuthChallengeHandler "eth" (fun _ _ => "sig") ⟨[⟨"0xa", "k"⟩], []⟩
      ⟨"m1", ⟨"SOL", "0xa", "d"⟩⟩ = (⟨[⟨"0xa", "k"⟩], []⟩, []) :=
  challenge_for_other_blockchain_ignored "eth" (fun _ _ => "sig") ⟨[⟨"0xa", "k"⟩], []⟩
    ⟨"m1", ⟨"SOL", "0xa", "d"⟩⟩ (by decide)

theorem accountsWatchSteps_changed_keys (blockchain : String) :
    ∀ (l : List Account) (st : StatusMap) (k : String),
      mapGet (accountsWatchSteps blockchain l st).1 k ≠ mapGet st k →
      ∃ account, account ∈ l ∧ k = toLowerCase account.address := by
  intro l
  induction l with
  | nil => intro st k h; exact absurd rfl h
  | cons a rest ih =>
    intro st k h
    simp only [accountsWatchSteps] at h
    by_cases hb : mapHas st (toLowerCase a.address) = true
    · rw [if_pos hb] at h
      obtain ⟨acc, hacc, hk⟩ := ih st k h
      exact ⟨acc, by simp [hacc], hk⟩
    · rw [if_neg hb] at h
      by_cases hch :
          mapGet (accountsWatchSteps blockchain rest
            (mapSet st (toLowerCase a.address) AccountStatus.AUTHORIZING)).1 k =
          mapGet (mapSet st (toLowerCase a.address) AccountStatus.AUTHORIZING) k
      · rw [hch, mapGet_mapSet] at h
        by_cases heq : toLowerCase a.address = k
        · exact ⟨a, by simp, heq.symm⟩
        · rw [if_neg heq] at h
          exact absurd rfl h
      · obtain ⟨acc, hacc, hk⟩ := ih _ k hch
        exact ⟨acc, by simp [hacc], hk⟩

/-- C8 amended: of the operations that insert status entries, the
account-list watch handler and the inbound challenge-failed/success handlers
do key their insertions by the lower-cased address — any key whose entry they
change is the lower-case of the relevant address — while `reconnectAddress`
and `reconnectAllAddresses` insert the address string verbatim (see the
counterexample), so the all-keys-lower-cased invariant holds only for the
former three operations. -/
theorem watch_and_challenge_handlers_lowercase_status_keys
    (blockchain : String) (s : RegState) (m : AddressMessage) (k : String) :
    (mapGet (addressAuthChallengeFailedHandler s m).accountsStatus k ≠
        mapGet s.accountsStatus k → k = toLowerCase m.payload.address) ∧
    (mapGet (addressAuthChallengeSuccessHandler s m).accountsStatus k ≠
        mapGet s.accountsStatus k → k = toLowerCase m.payload.address) ∧
    (mapGet (accountsWatchHandler blockchain s).1.accountsStatus k ≠
        mapGet s.accountsStatus k →
      ∃ account, account ∈ s.accounts ∧ k = toLowerCase account.address) := by
  refine ⟨?_, ?_, ?_⟩
  · intro hne
    simp only [addressAuthChallengeFailedHandler, mapGet_mapSet] at hne
    by_cases heq : toLowerCase m.payload.address = k
    · exact heq.symm
    · rw [if_neg heq] at hne
      exact absurd rfl hne
  · intro hne
    simp only [addressAuthChallengeSuccessHandler, mapGet_mapSet] at hne
    by_cases heq : toLowerCase m.payload.address = k
    · exact heq.symm
    · rw [if_neg heq] at hne
      exact absurd rfl hne
  · intro hne
    exact accountsWatchSteps_changed_keys blockchain s.accounts s.accountsStatus k hne

/-- C8 amended witness: the challenge-failed handler evaluated on a
mixed-case address changes only the lower-cased key. -/
theorem watch_and_challenge_handlers_lowercase_status_keys_witness :
    ("0xcd" : String) = toLowerCase "0xCD" :=
  (watch_and_challenge_handlers_lowercase_status_keys "eth" ⟨[], []⟩ ⟨⟨"0xCD"⟩⟩ "0xcd").1
    (by decide)

theorem accountsWatchSteps_preserves (blockchain : String) :
    ∀ (l : List Account) (st : StatusMap) (k : String) (v : AccountStatus),
      mapGet st k = some v → mapGet (accountsWatchSteps blockchain l st).1 k = some v := by
  intro l
  induction l with
  | nil => intro st k v h; exact h
  | cons a rest ih =>
    intro st k v h
    simp only [accountsWatchSteps]
    by_cases hb : mapHas st (toLowerCase a.address) = true
    · rw [if_pos hb]
      exact ih st k v h
    · rw [if_neg hb]
      apply ih
      rw [mapGet_mapSet]
      by_cases heq : toLowerCase a.address = k
      · exfalso
        have hnone := (mapHas_false_iff st (toLowerCase a.address)).1 (by simpa using hb)
        rw [heq, h] at hnone
        cases hnone
      · rw [if_neg heq]
        exact h

theorem accountsWatchSteps_not_announced (blockchain : String) :
    ∀ (l : List Account) (st : StatusMap) (addr : String),
      mapGet st (toLowerCase addr) ≠ none →
      SocketEvent.addAddress blockchain addr version ∉ (accountsWatchSteps blockchain l st).2 := by
  intro l
  induction l with
  | nil => intro st addr _ hmem; simp [accountsWatchSteps] at hmem
  | cons a rest ih =>
    intro st addr h
    simp only [accountsWatchSteps]
    by_cases hb : mapHas st (toLowerCase a.address) = true
    · rw [if_pos hb]
      exact ih st addr h
    · rw [if_neg hb]
      intro hmem
      rcases List.mem_cons.mp hmem with heq | hmem2
      · have haddr : addr = a.address := by
          simpa using congrArg
            (fun e => match e with
              | SocketEvent.addAddress _ x _ => x
              | _ => addr) heq
        have hnone := (mapHas_false_iff st (toLowerCase a.address)).1 (by simpa using hb)
        rw [← haddr] at hnone
        exact h hnone
      · have h2 : mapGet (mapSet st (toLowerCase a.address) AccountStatus.AUTHORIZING)
            (toLowerCase addr) ≠ none := by
          rw [mapGet_mapSet]
          by_cases heq2 : toLowerCase a.address = toLowerCase addr
          · rw [if_pos heq2]
            intro hc
            cases hc
          · rw [if_neg heq2]
            exact h
        exact ih _ addr h2 hmem2

theorem accountsWatchSteps_marks (blockchain : String) :
    ∀ (l : List Account) (st : StatusMap) (account : Account),
      (l.map fun a => toLowerCase a.address).Nodup →
      account ∈ l → mapGet st (toLowerCase account.address) = none →
      mapGet (accountsWatchSteps blockchain l st).1 (toLowerCase account.address) =
        some AccountStatus.AUTHORIZING ∧
      SocketEvent.addAddress blockchain account.address version ∈
        (accountsWatchSteps blockchain l st).2 := by
  intro l
  induction l with
  | nil => intro st account _ hmem; cases hmem
  | cons a rest ih =>
    intro st account hnd hmem hnone
    have hnd2 : (toLowerCase a.address :: rest.map fun x => toLowerCase x.address).Nodup := by
      simpa using hnd
    simp only [accountsWatchSteps]
    rcases List.mem_cons.mp hmem with rfl | hmem2
    · have hb : ¬mapHas st (toLowerCase account.address) = true := by
        rw [(mapHas_false_iff st (toLowerCase account.address)).2 hnone]
        simp
      rw [if_neg hb]
      constructor
      · apply accountsWatchSteps_preserves
        rw [mapGet_mapSet, if_pos rfl]
      · exact List.mem_cons_self _ _
    · by_cases hb : mapHas st (toLowerCase a.address) = true
      · rw [if_pos hb]
        exact ih st account (List.nodup_cons.mp hnd2).2 hmem2 hnone
      · rw [if_neg hb]
        have hne : toLowerCase a.address ≠ toLowerCase account.address := by
          intro heq
          have hmem3 : toLowerCase account.address ∈ rest.map fun x => toLowerCase x.address :=
            List.mem_map_of_mem _ hmem2
          rw [← heq] at hmem3
          exact (List.nodup_cons.mp hnd2).1 hmem3
        have hnone2 : mapGet (mapSet st (toLowerCase a.address) AccountStatus.AUTHORIZING)
            (toLowerCase account.address) = none := by
          rw [mapGet_mapSet, if_neg hne]
          exact hnone
        obtain ⟨h1, h2⟩ := ih _ account (List.nodup_cons.mp hnd2).2 hmem2 hnone2
        exact ⟨h1, List.mem_cons_of_mem _ h2⟩

theorem accountsWatchSteps_events_shape (blockchain : String) :
    ∀ (l : List Account) (st : StatusMap) (e : SocketEvent),
      e ∈ (accountsWatchSteps blockchain l st).2 →
      ∃ account, account ∈ l ∧ e = SocketEvent.addAddress blockchain account.address 2 := by
  intro l
  induction l with
  | nil => intro st e he; simp [accountsWatchSteps] at he
  | cons a rest ih =>
    intro st e he
    simp only [accountsWatchSteps] at he
    by_cases hb : mapHas st (toLowerCase a.address) = true
    · rw [if_pos hb] at he
      obtain ⟨acc, hacc, heq⟩ := ih st e he
      exact ⟨acc, List.mem_cons_of_mem _ hacc, heq⟩
    · rw [if_neg hb] at he
      rcases List.mem_cons.mp he with heq | he2
      · exact ⟨a, List.mem_cons_self _ _, heq⟩
      · obtain ⟨acc, hacc, heq⟩ := ih _ e he2
        exact ⟨acc, List.mem_cons_of_mem _ hacc, heq⟩

/-- C9: whenever the account-list watch callback runs (after every mutation
of the list, the initial hydration included), every account whose lower-cased
address has no status entry is marked `AUTHORIZING` and announced to the peer
through an `addAddress` event carrying its address and the `version`
constant; accounts that already have a status entry keep it unchanged and are
not re-announced; and every event the callback emits is an `addAddress`
announcement with version 2 for some account of the list.  (The lower-cased
addresses are assumed pairwise distinct — addresses are unique identities.) -/
theorem accounts_watch_marks_and_announces_fresh (blockchain : String) (s : RegState)
    (hnodup : (s.accounts.map fun a => toLowerCase a.address).Nodup)
    (account : Account) (hmem : account ∈ s.accounts) :
    (mapGet s.accountsStatus (toLowerCase account.address) = none →
      mapGet (accountsWatchHandler blockchain s).1.accountsStatus (toLowerCase account.address) =
        some AccountStatus.AUTHORIZING ∧
      SocketEvent.addAddress blockchain account.address version ∈
        (accountsWatchHandler blockchain s).2) ∧
    (∀ v, mapGet s.accountsStatus (toLowerCase account.address) = some v →
      mapGet (accountsWatchHandler blockchain s).1.accountsStatus (toLowerCase account.address) =
        some v ∧
      SocketEvent.addAddress blockchain account.address version ∉
        (accountsWatchHandler blockchain s).2) ∧
    (∀ e ∈ (accountsWatchHandler blockchain s).2,
      ∃ a2, a2 ∈ s.accounts ∧ e = SocketEvent.addAddress blockchain a2.address 2) := by
  refine ⟨?_, ?_, ?_⟩
  · intro hnone
    exact accountsWatchSteps_marks blockchain s.accounts s.accountsStatus account
      hnodup hmem hnone
  · intro v hv
    constructor
    · exact accountsWatchSteps_preserves blockchain s.accounts s.accountsStatus _ v hv
    · apply accountsWatchSteps_not_announced
      rw [hv]
      intro hc
      cases hc
  · intro e he
    exact accountsWatchSteps_events_shape blockchain s.accounts s.accountsStatus e he

/-- C9 witness: hydration with accounts `0xA` (untracked) and `0xb` (already
tracked `ONLINE`) marks `0xa` as `AUTHORIZING` and announces `0xA`. -/
theorem accounts_watch_marks_and_announces_fresh_witness :
    mapGet (accountsWatchHandler "eth"
        ⟨[⟨"0xA", "k1"⟩, ⟨"0xb", "k2"⟩], [("0xb", AccountStatus.ONLINE)]⟩).1.accountsStatus
      (toLowerCase "0xA") = some AccountStatus.AUTHORIZING ∧
    SocketEvent.addAddress "eth" "0xA" version ∈
      (accountsWatchHandler "eth"
        ⟨[⟨"0xA", "k1"⟩, ⟨"0xb", "k2"⟩], [("0xb", AccountStatus.ONLINE)]⟩).2 :=
  (accounts_watch_marks_and_announces_fresh "eth"
    ⟨[⟨"0xA", "k1"⟩, ⟨"0xb", "k2"⟩], [("0xb", AccountStatus.ONLINE)]⟩
    (by decide) ⟨"0xA", "k1"⟩ (by decide)).1 (by decide)

end AirdropNavigator
